import Mathlib

/-!
Shallow embedding of the agentsh command-execution core (src/process.rs,
src/output.rs, src/registry.rs, src/session.rs) and proofs about the
frozen claims.  Strings are modelled as their character lists; the
Unicode-aware character classes of the Rust regex crate (word characters,
whitespace) are modelled on their ASCII fragment, which covers every
character class the embedded patterns mention.
-/

namespace Agentsh

/-- Word character for the regex word-boundary assertion: ASCII
alphanumeric or underscore. -/
def isWordChar (c : Char) : Bool :=
  c.isAlphanum || c == '_'

/-- Whitespace for the regex class and for Rust whitespace splitting and
trimming, on the ASCII range. -/
def isSpChar (c : Char) : Bool :=
  c == ' ' || c == '\t' || c == '\n' || c == '\r' || c == '\x0b' || c == '\x0c'

/-- Any character other than a newline: the regex dot. -/
def notNl (c : Char) : Bool :=
  c != '\n'

/-- One atom of a regular expression: a literal character, a character
class, a Kleene star over a class, or a word-boundary assertion.
Alternation is represented one alternative per atom list. -/
inductive RAtom where
  | lit (c : Char)
  | cls (p : Char → Bool)
  | star (p : Char → Bool)
  | bound

/-- Word-boundary test between the previously consumed character and the
next character of the input; a missing character counts as non-word. -/
def boundaryOk (prev : Option Char) (next : Option Char) : Bool :=
  (match prev with | some c => isWordChar c | none => false)
    != (match next with | some c => isWordChar c | none => false)

/-- Does the atom sequence match a prefix of the input?  `prev` is the
character just before the current position (for word boundaries).  The
fuel only forces structural termination: every step shrinks the sum of
pattern length and input length, so the fuel supplied by `matchesHere`
is never exhausted. -/
def matchesFromF : Nat → List RAtom → Option Char → List Char → Bool
  | 0, _, _, _ => false
  | fuel + 1, ps, prev, xs =>
    match ps with
    | [] => true
    | RAtom.lit c :: ps2 =>
      match xs with
      | [] => false
      | x :: xs2 => x == c && matchesFromF fuel ps2 (some x) xs2
    | RAtom.cls p :: ps2 =>
      match xs with
      | [] => false
      | x :: xs2 => p x && matchesFromF fuel ps2 (some x) xs2
    | RAtom.star p :: ps2 =>
      matchesFromF fuel ps2 prev xs ||
        (match xs with
         | [] => false
         | x :: xs2 => p x && matchesFromF fuel (RAtom.star p :: ps2) (some x) xs2)
    | RAtom.bound :: ps2 =>
      boundaryOk prev xs.head? && matchesFromF fuel ps2 prev xs

/-- Match of the atom sequence at exactly this position. -/
def matchesHere (ps : List RAtom) (prev : Option Char) (xs : List Char) : Bool :=
  matchesFromF (ps.length + xs.length + 1) ps prev xs

/-- Search for a match starting at this position or any later one. -/
def searchFrom (ps : List RAtom) : Option Char → List Char → Bool
  | prev, [] => matchesHere ps prev []
  | prev, x :: xs => matchesHere ps prev (x :: xs) || searchFrom ps (some x) xs

/-- Is there a match of any alternative anywhere in the string
(the `Regex::is_match` of the Rust regex crate)? -/
def reMatch (alternatives : List (List RAtom)) (s : List Char) : Bool :=
  alternatives.any (fun ps => searchFrom ps none s)

/-- Literal atoms for a string. -/
def litAtoms (s : String) : List RAtom :=
  s.data.map RAtom.lit

/-- Case-insensitive atoms for a string. -/
def ciAtoms (s : String) : List RAtom :=
  s.data.map (fun c => RAtom.cls (fun x => x.toLower == c.toLower))

/-- A whole word, case sensitive. -/
def wordAtoms (s : String) : List RAtom :=
  RAtom.bound :: litAtoms s ++ [RAtom.bound]

/-- A whole word, case insensitive. -/
def ciWordAtoms (s : String) : List RAtom :=
  RAtom.bound :: ciAtoms s ++ [RAtom.bound]

/-- Character class of CSI parameter bytes: the regex class with the
digits, semicolon, question mark, angle brackets, equals and bang. -/
def isCsiParam (c : Char) : Bool :=
  c.isDigit || c == ';' || c == '?' || c == '<' || c == '=' || c == '>' || c == '!'

/-- Final byte of a CSI sequence: an ASCII letter or a tilde. -/
def isAsciiLetter (c : Char) : Bool :=
  ('a' ≤ c && c ≤ 'z') || ('A' ≤ c && c ≤ 'Z')

def isCsiFinal (c : Char) : Bool :=
  isAsciiLetter c || c == '~'

/-- The charset-selection byte class of the ANSI regex: digits, A or B. -/
def isCharsetChar (c : Char) : Bool :=
  c.isDigit || c == 'A' || c == 'B'

/-- The six dangerous-command regexes of process.rs, in source order,
each as a list of alternatives paired with its description. -/
def dangerousPatterns : List (List (List RAtom) × String) :=
  [ ([ litAtoms ":()" ++
        [RAtom.star isSpChar, RAtom.lit '\x7b', RAtom.star notNl, RAtom.lit '|',
         RAtom.star notNl, RAtom.lit '&', RAtom.star isSpChar, RAtom.lit '\x7d',
         RAtom.star isSpChar, RAtom.lit ';'] ],
      "fork bomb"),
    ([ wordAtoms "mkfs" ], "filesystem format (mkfs)"),
    ([ RAtom.bound :: litAtoms "dd" ++ [RAtom.bound, RAtom.star notNl, RAtom.bound] ++
        litAtoms "of=/dev/" ],
      "raw write to block device (dd of=/dev/...)"),
    (["sd", "nvme", "hd", "vd", "xvd", "disk", "mapper/"].map
        (fun dev => RAtom.lit '>' :: RAtom.star isSpChar :: litAtoms "/dev/" ++ litAtoms dev),
      "redirect to block device"),
    (["shutdown", "reboot", "halt", "poweroff"].map wordAtoms,
      "system shutdown/reboot"),
    ([ RAtom.bound :: litAtoms "init" ++
        [RAtom.cls isSpChar, RAtom.star isSpChar,
         RAtom.cls (fun c => c == '0' || c == '6'), RAtom.bound] ],
      "system halt/reboot via init")]

/-- First dangerous pattern that matches, returning its description
(the iteration order of validate_command). -/
def findDangerousD : List (List (List RAtom) × String) → List Char → Option String
  | [], _ => none
  | (pat, descr) :: rest, cs =>
    if reMatch pat cs then some descr else findDangerousD rest cs

/-- Does any dangerous pattern match? -/
def dangerousAny (cs : List Char) : Bool :=
  dangerousPatterns.any (fun pr => reMatch pr.1 cs)

/-- The ten error-line regexes of output.rs: case-insensitive whole
words, in source order. -/
def errorPatterns : List (List RAtom) :=
  [ciWordAtoms "error", ciWordAtoms "failed", ciWordAtoms "failure",
   ciWordAtoms "fatal", ciWordAtoms "panic", ciWordAtoms "exception",
   ciWordAtoms "traceback", ciWordAtoms "FAIL", ciWordAtoms "denied",
   ciWordAtoms "aborted"]

/-- Does a line match any of the error patterns? -/
def isErrorLine (line : String) : Bool :=
  errorPatterns.any (fun ps => searchFrom ps none line.data)

/-! Tokenization helpers mirroring the Rust standard library calls used
by the validator. -/

/-- Longest run of non-whitespace characters and the remainder. -/
def takeWord : List Char → List Char × List Char
  | [] => ([], [])
  | c :: cs =>
    if isSpChar c then ([], c :: cs)
    else
      let pr := takeWord cs
      (c :: pr.1, pr.2)

/-- Whitespace splitting with a fuel argument (the fuel is the length of
the input, which always suffices because every step consumes at least
one character). -/
def wsWordsF : Nat → List Char → List (List Char)
  | 0, _ => []
  | fuel + 1, l =>
    match l with
    | [] => []
    | c :: cs =>
      if isSpChar c then wsWordsF fuel cs
      else
        let pr := takeWord cs
        (c :: pr.1) :: wsWordsF fuel pr.2

/-- Rust split_whitespace: maximal non-whitespace runs, no empties. -/
def splitWs (l : List Char) : List (List Char) :=
  wsWordsF l.length l

/-- Rust str::trim on the character list. -/
def trimStrL (l : List Char) : List Char :=
  ((l.dropWhile isSpChar).reverse.dropWhile isSpChar).reverse

/-- Rust trim_end_matches for a single character. -/
def dropTrail (c : Char) (l : List Char) : List Char :=
  (l.reverse.dropWhile (fun x => x == c)).reverse

/-- Split on the shell separators of split_subcommands: at each point the
earliest occurrence of a double ampersand, double pipe or semicolon ends
the current part.  The accumulator holds the current part reversed. -/
def splitSubsAux : List Char → List Char → List (List Char)
  | acc, [] => [acc.reverse]
  | acc, '&' :: '&' :: rest => acc.reverse :: splitSubsAux [] rest
  | acc, '|' :: '|' :: rest => acc.reverse :: splitSubsAux [] rest
  | acc, ';' :: rest => acc.reverse :: splitSubsAux [] rest
  | acc, c :: rest => splitSubsAux (c :: acc) rest

/-- The sub-commands checked by check_destructive_on_protected_paths:
the command is trimmed, then split on the separators. -/
def subcommandsOf (cs : List Char) : List (List Char) :=
  splitSubsAux [] (trimStrL cs)

/-- Does the token start with a dash? -/
def startsDash (a : List Char) : Bool :=
  a.head? == some '-'

/-- Does the token start with a double dash? -/
def startsDashDash : List Char → Bool
  | '-' :: '-' :: _ => true
  | _ => false

def containsChar (a : List Char) (c : Char) : Bool :=
  a.any (fun x => x == c)

/-- Normalization applied to both the argument and the protected path:
trailing slashes removed, the empty result read as the root. -/
def normPath (l : List Char) : List Char :=
  let t := dropTrail '/' l
  if t.isEmpty then ['/'] else t

/-- PROTECTED_PATHS of process.rs, in source order. -/
def protectedPaths : List String :=
  ["/", "/*", "/bin", "/sbin", "/usr", "/etc", "/var", "/home", "/root",
   "/lib", "/lib64", "/opt", "/boot", "/dev", "/sys", "/proc", "/System",
   "/Library", "/Applications", "/Users", "/private", "/private/var",
   "/private/etc"]

/-- Recursive flag recognized for rm: -r, -R, --recursive, or a short
flag cluster containing r or R. -/
def rmRecursiveFlag (a : List Char) : Bool :=
  a == "-r".data || a == "-R".data || a == "--recursive".data ||
    (startsDash a && !startsDashDash a && (containsChar a 'r' || containsChar a 'R'))

/-- Recursive flag recognized for chmod and chown: -R, --recursive, or a
short flag cluster containing R. -/
def ccRecursiveFlag (a : List Char) : Bool :=
  a == "-R".data || a == "--recursive".data ||
    (startsDash a && !startsDashDash a && containsChar a 'R')

/-- Tokens after the first occurrence of the command word, or none if
the word does not occur (Iterator::position plus the slice). -/
def argsAfter (cmd : List Char) : List (List Char) → Option (List (List Char))
  | [] => none
  | w :: ws => if w == cmd then some ws else argsAfter cmd ws

/-- is_dangerous_rm of process.rs. -/
def isDangerousRm (sub : List Char) : Bool :=
  match argsAfter "rm".data (splitWs sub) with
  | none => false
  | some args =>
    args.any rmRecursiveFlag &&
      args.any (fun a =>
        !startsDash a &&
          protectedPaths.any (fun p => normPath a == normPath p.data || a == "/*".data))

/-- is_dangerous_chmod_chown of process.rs. -/
def isDangerousCC (sub : List Char) (cmdName : List Char) : Bool :=
  match argsAfter cmdName (splitWs sub) with
  | none => false
  | some args =>
    args.any ccRecursiveFlag &&
      args.any (fun a =>
        !startsDash a && protectedPaths.any (fun p => normPath a == normPath p.data))

/-- The three destructive checks applied to one sub-command. -/
def destructiveHit (t : List Char) : Bool :=
  isDangerousRm t || isDangerousCC t "chmod".data || isDangerousCC t "chown".data

/-- String from a character list. -/
def strOf (l : List Char) : String :=
  String.mk l

/-- Is the value the error case? -/
def isErrE {ε α : Type} : Except ε α → Bool
  | Except.error _ => true
  | Except.ok _ => false

/-- The per-sub-command loop of check_destructive_on_protected_paths,
with the exact error messages of the source. -/
def checkSubs : List (List Char) → Except String Unit
  | [] => Except.ok ()
  | sub :: rest =>
    let t := trimStrL sub
    if t.isEmpty then checkSubs rest
    else if isDangerousRm t then
      Except.error ("blocked: recursive delete targeting a protected system path: " ++ strOf t)
    else if isDangerousCC t "chmod".data then
      Except.error ("blocked: recursive chmod on a protected system path: " ++ strOf t)
    else if isDangerousCC t "chown".data then
      Except.error ("blocked: recursive chown on a protected system path: " ++ strOf t)
    else checkSubs rest

/-- check_destructive_on_protected_paths of process.rs. -/
def checkDestructive (cs : List Char) : Except String Unit :=
  checkSubs (subcommandsOf cs)

/-- validate_command of process.rs: the dangerous-pattern regexes in
order, then the destructive check. -/
def validateCommand (s : String) : Except String Unit :=
  match findDangerousD dangerousPatterns s.data with
  | some descr =>
    Except.error ("blocked: command matches dangerous pattern (" ++ descr ++ "): " ++ s)
  | none => checkDestructive s.data

/-! Claim-side predicates for the validator claim, written from the
words of the specification.  The original form uses the protected-path
list of the specification (which does not contain the literal star
target) and treats the literal star target as protected for rm only; it
also recognizes the lowercase canonical short flag for chmod and chown,
as the flag sentence of the specification literally reads. -/

/-- The protected paths as listed in the specification (no star entry). -/
def specProtectedOrig : List String :=
  ["/", "/bin", "/sbin", "/usr", "/etc", "/var", "/home", "/root",
   "/lib", "/lib64", "/opt", "/boot", "/dev", "/sys", "/proc", "/System",
   "/Library", "/Applications", "/Users", "/private", "/private/var",
   "/private/etc"]

/-- Recursive flag for chmod and chown under the literal reading of the
claim: long form, canonical short in both cases, or a cluster with R. -/
def specCCFlagOrig (a : List Char) : Bool :=
  a == "-r".data || a == "-R".data || a == "--recursive".data ||
    (startsDash a && !startsDashDash a && containsChar a 'R')

/-- The claim as stated, for rm on one sub-command. -/
def specRmOrig (sub : List Char) : Bool :=
  match argsAfter "rm".data (splitWs sub) with
  | none => false
  | some args =>
    args.any rmRecursiveFlag &&
      args.any (fun a =>
        !startsDash a &&
          (specProtectedOrig.any (fun p => normPath a == normPath p.data) ||
            a == "/*".data))

/-- The claim as stated, for chmod or chown on one sub-command. -/
def specCCOrig (sub : List Char) (cmdName : List Char) : Bool :=
  match argsAfter cmdName (splitWs sub) with
  | none => false
  | some args =>
    args.any specCCFlagOrig &&
      args.any (fun a =>
        !startsDash a && specProtectedOrig.any (fun p => normPath a == normPath p.data))

/-- The rejection predicate of the claim as stated. -/
def specRejectsOrig (s : String) : Bool :=
  dangerousAny s.data ||
    (subcommandsOf s.data).any (fun sub =>
      let t := trimStrL sub
      specRmOrig t || specCCOrig t "chmod".data || specCCOrig t "chown".data)

/-! The amended claim: the literal star target belongs to the protected
set for all three tools (compared like every other protected path, after
trimming trailing slashes), and the recursive flags recognized for chmod
and chown are the long form, the uppercase canonical short, or a short
cluster containing R.  The amended protected set is the specification
list plus the star entry; it is written here in the order of the
source. -/

/-- The amended protected set: the specification list plus the literal
star target. -/
def specProtectedAmended : List String :=
  ["/", "/*", "/bin", "/sbin", "/usr", "/etc", "/var", "/home", "/root",
   "/lib", "/lib64", "/opt", "/boot", "/dev", "/sys", "/proc", "/System",
   "/Library", "/Applications", "/Users", "/private", "/private/var",
   "/private/etc"]

/-- The amended claim, for rm on one sub-command. -/
def specRmAmended (sub : List Char) : Bool :=
  match argsAfter "rm".data (splitWs sub) with
  | none => false
  | some args =>
    args.any rmRecursiveFlag &&
      args.any (fun a =>
        !startsDash a &&
          specProtectedAmended.any (fun p => normPath a == normPath p.data))

/-- The amended claim, for chmod or chown on one sub-command. -/
def specCCAmended (sub : List Char) (cmdName : List Char) : Bool :=
  match argsAfter cmdName (splitWs sub) with
  | none => false
  | some args =>
    args.any ccRecursiveFlag &&
      args.any (fun a =>
        !startsDash a && specProtectedAmended.any (fun p => normPath a == normPath p.data))

/-- The rejection predicate of the amended claim. -/
def specRejectsAmended (s : String) : Bool :=
  dangerousAny s.data ||
    (subcommandsOf s.data).any (fun sub =>
      let t := trimStrL sub
      specRmAmended t || specCCAmended t "chmod".data || specCCAmended t "chown".data)

/-! The output module: windowing and error extraction (output.rs). -/

/-- extract_errors of output.rs: the lines matching any error pattern,
in order. -/
def extractErrors (lines : List String) : List String :=
  lines.filter isErrorLine

/-- OutputWindow of output.rs. -/
structure OutputWindow where
  head : List String
  tail : List String
  errorLines : List String
  totalLines : Nat
  truncated : Bool
deriving DecidableEq

/-- window of output.rs.  The reserved head size is 10; Rust saturating
subtraction on usize is subtraction on Nat. -/
def window (lines : List String) (maxLines : Nat) : OutputWindow :=
  let totalLines := lines.length
  if totalLines ≤ maxLines then
    { head := lines, tail := [], errorLines := extractErrors lines,
      totalLines := totalLines, truncated := false }
  else
    let headCount := min 10 maxLines
    let tailCount := maxLines - headCount
    let head := lines.take headCount
    let tail :=
      if 0 < tailCount then lines.drop (totalLines - tailCount) else []
    { head := head, tail := tail, errorLines := extractErrors lines,
      totalLines := totalLines, truncated := true }

/-! The ANSI stripper (output.rs) as a single left-to-right pass of
replace_all with the empty replacement: at every position the five
alternatives of the escape regex are tried in source order; a match is
skipped, otherwise one character is kept.  Within each alternative the
greedy repetitions are unambiguous because the repeated classes are
disjoint from what must follow them. -/

/-- CSI alternative: ESC, open bracket, parameter bytes, final byte. -/
def matchCSI : List Char → Option Nat
  | a :: b :: rest =>
    if a == '\x1b' && b == '[' then
      let k := (rest.takeWhile isCsiParam).length
      match rest.drop k with
      | f :: _ => if isCsiFinal f then some (k + 3) else none
      | [] => none
    else none
  | _ => none

/-- OSC alternative: ESC, close bracket, anything but BEL, then BEL. -/
def matchOSC : List Char → Option Nat
  | a :: b :: rest =>
    if a == '\x1b' && b == ']' then
      let k := (rest.takeWhile (fun c => c != '\x07')).length
      match rest.drop k with
      | _ :: _ => some (k + 3)
      | [] => none
    else none
  | _ => none

/-- Charset alternative: ESC, a parenthesis, a charset byte. -/
def matchCharset : List Char → Option Nat
  | a :: b :: c :: _ =>
    if a == '\x1b' && (b == '(' || b == ')') && isCharsetChar c then some 3 else none
  | _ => none

/-- Two-byte escape alternative: ESC and an ASCII letter. -/
def matchTwoByte : List Char → Option Nat
  | a :: b :: _ =>
    if a == '\x1b' && isAsciiLetter b then some 2 else none
  | _ => none

/-- Backspace-overstrike alternative: any non-newline character followed
by a backspace. -/
def matchBS : List Char → Option Nat
  | a :: b :: _ =>
    if b == '\x08' && a != '\n' then some 2 else none
  | _ => none

/-- The whole escape regex at one position: the alternatives in source
order. -/
def matchAnsiAt (l : List Char) : Option Nat :=
  match matchCSI l with
  | some n => some n
  | none =>
    match matchOSC l with
    | some n => some n
    | none =>
      match matchCharset l with
      | some n => some n
      | none =>
        match matchTwoByte l with
        | some n => some n
        | none => matchBS l

/-- One pass of replace_all with the empty replacement.  The fuel is the
length of the input; every step consumes at least one character, so the
fuel never runs out before the input does. -/
def stripGoF : Nat → List Char → List Char
  | 0, l => l
  | fuel + 1, l =>
    match l with
    | [] => []
    | x :: xs =>
      match matchAnsiAt (x :: xs) with
      | some n => stripGoF fuel (List.drop n (x :: xs))
      | none => x :: stripGoF fuel xs

/-- strip_ansi on character lists. -/
def stripAnsiL (l : List Char) : List Char :=
  stripGoF l.length l

/-- strip_ansi of output.rs. -/
def stripAnsi (s : String) : String :=
  String.mk (stripAnsiL s.data)

/-- clean_line of session.rs: strip ANSI escapes, then trim trailing
newlines, then trim trailing carriage returns. -/
def cleanLine (raw : String) : String :=
  String.mk (dropTrail '\r' (dropTrail '\n' (stripAnsi raw).data))

/-! The process runner (process.rs) and the registry (registry.rs).
Wall-clock durations are omitted from the result model; instants are
modelled as seconds on Nat.  The asynchronous parts (spawning, pipe
reading, awaiting) are abstracted: run takes the result the spawned
process would produce, and the registry wait is modelled by its
lock-holding first phase, which is where its lookup and its state
change happen. -/

/-- ProcessResult of process.rs without the wall-clock duration field. -/
structure PResult where
  exitCode : Int
  lines : List String
  timedOut : Bool
deriving DecidableEq

/-- ProcessConfig of process.rs. -/
structure ProcessConfig where
  command : String
  workingDirectory : Option String
  timeoutSeconds : Option Nat
deriving DecidableEq

/-- Outcome of run: the produced result and whether a process was
spawned. -/
structure RunOutcome where
  result : PResult
  spawned : Bool
deriving DecidableEq

/-- run of process.rs up to its spawn point: a rejected command yields
the synthetic result without spawning; otherwise the spawned process
produces execResult. -/
def runModel (cfg : ProcessConfig) (execResult : PResult) : RunOutcome :=
  match validateCommand cfg.command with
  | Except.error reason =>
    { result := { exitCode := -1, lines := [reason], timedOut := false },
      spawned := false }
  | Except.ok _ => { result := execResult, spawned := true }

/-- A single quote as a string, for the registry error messages. -/
def sqs : String :=
  String.mk [Char.ofNat 39]

/-- COMPLETED_TTL in seconds. -/
def ttlSeconds : Nat := 1800

/-- ProcessEntry of registry.rs: the task handle is modelled by whether
it is still present. -/
structure REntry where
  command : String
  startTime : Nat
  completedAt : Option Nat
  buffer : List String
  hasJoinHandle : Bool
  result : Option PResult
  maxOutputLines : Nat
deriving DecidableEq

/-- The registry map, as an association list keyed by the ID. -/
abbrev Registry : Type :=
  List (String × REntry)

/-- Is the completion timestamp at least the TTL in the past? -/
def isExpired (e : REntry) (now : Nat) : Bool :=
  match e.completedAt with
  | some t => decide (ttlSeconds ≤ now - t)
  | none => false

/-- prune_expired of registry.rs: keep running entries and completed
entries younger than the TTL. -/
def pruneExpired (st : Registry) (now : Nat) : Registry :=
  st.filter (fun pr => !isExpired pr.2 now)

/-- Map lookup. -/
def regFind (st : Registry) (id : String) : Option REntry :=
  match st.find? (fun pr => pr.1 == id) with
  | some pr => some pr.2
  | none => none

/-- Replace the entry stored under an ID that is present. -/
def regUpdate (st : Registry) (id : String) (e : REntry) : Registry :=
  st.map (fun pr => if pr.1 == id then (pr.1, e) else pr)

/-- HashMap::insert: replace if present, append otherwise. -/
def regStore (st : Registry) (id : String) (e : REntry) : Registry :=
  if (regFind st id).isSome then regUpdate st id e else st ++ [(id, e)]

/-- start of registry.rs: prune, reject a duplicate ID, enforce the cap
of 20 running entries, insert a fresh running entry. -/
def startModel (st : Registry) (now : Nat) (id : String) (cfg : ProcessConfig)
    (maxLines : Nat) : Except String Registry :=
  let st1 := pruneExpired st now
  if (regFind st1 id).isSome then
    Except.error ("process with id " ++ sqs ++ id ++ sqs ++ " already exists")
  else
    let runningCount := (st1.filter (fun pr => pr.2.result.isNone)).length
    if 20 ≤ runningCount then
      Except.error ("too many concurrent processes (" ++ toString runningCount ++
        "/20). Wait for some to complete or kill running processes.")
    else
      Except.ok (st1 ++ [(id,
        { command := cfg.command, startTime := now, completedAt := none,
          buffer := [], hasJoinHandle := true, result := none,
          maxOutputLines := maxLines })])

/-- store_result of registry.rs: prune, then insert a completed entry. -/
def storeResultModel (st : Registry) (now : Nat) (id : String) (command : String)
    (r : PResult) (maxLines : Nat) : Registry :=
  regStore (pruneExpired st now) id
    { command := command, startTime := now, completedAt := some now,
      buffer := [], hasJoinHandle := false, result := some r,
      maxOutputLines := maxLines }

/-- What the lock-holding phase of wait decides: return the cached
result, or take the task handle to await it. -/
inductive WaitStep where
  | cached (r : PResult) (maxLines : Nat)
  | taken (maxLines : Nat)
deriving DecidableEq

/-- The first phase of wait in registry.rs, under the lock: no pruning;
unknown ID fails, a cached result is returned as is, an available handle
is taken out of the entry, an absent handle fails. -/
def waitLock (st : Registry) (id : String) : Except String (WaitStep × Registry) :=
  match regFind st id with
  | none => Except.error ("no process with id " ++ sqs ++ id ++ sqs)
  | some e =>
    match e.result with
    | some r => Except.ok (WaitStep.cached r e.maxOutputLines, st)
    | none =>
      if e.hasJoinHandle then
        Except.ok (WaitStep.taken e.maxOutputLines,
          regUpdate st id { e with hasJoinHandle := false })
      else
        Except.error ("process " ++ sqs ++ id ++ sqs ++ " is already being waited on")

/-- kill of registry.rs: no pruning; unknown ID fails, a completed entry
fails, an entry whose handle is present is aborted and given the
synthetic result, an entry whose handle was already taken is left
untouched and kill succeeds. -/
def killModel (st : Registry) (now : Nat) (id : String) : Except String Registry :=
  match regFind st id with
  | none => Except.error ("no process with id " ++ sqs ++ id ++ sqs)
  | some e =>
    if e.result.isSome then
      Except.error ("process " ++ sqs ++ id ++ sqs ++ " has already completed")
    else if e.hasJoinHandle then
      Except.ok (regUpdate st id
        { e with hasJoinHandle := false,
                 result := some { exitCode := -1, lines := e.buffer, timedOut := false },
                 completedAt := some now })
    else Except.ok st

/-- OutputSlice of registry.rs. -/
structure OutputSlice where
  id : String
  startLine : Nat
  endLine : Nat
  totalLines : Nat
  lines : List String
deriving DecidableEq

/-- The lines get_output reads: the cached result if present, otherwise
the live shared buffer. -/
def entryLines (e : REntry) : List String :=
  match e.result with
  | some r => r.lines
  | none => e.buffer

/-- The slice arithmetic of get_output: clamp start to total, clamp end
to total, cap the effective end at start plus 500, slice when the range
is non-empty. -/
def sliceCalc (idv : String) (ls : List String) (startQ endQ : Option Nat) : OutputSlice :=
  let total := ls.length
  let s := min (startQ.getD 0) total
  let en := min (endQ.getD total) total
  let effEnd := min en (s + 500)
  let slice := if s < effEnd then (ls.drop s).take (effEnd - s) else []
  { id := idv, startLine := s, endLine := effEnd, totalLines := total, lines := slice }

/-- get_output of registry.rs. -/
def getOutputModel (st : Registry) (id : String) (startQ endQ : Option Nat) :
    Except String OutputSlice :=
  match regFind st id with
  | none => Except.error ("no process with id " ++ sqs ++ id ++ sqs)
  | some e => Except.ok (sliceCalc id (entryLines e) startQ endQ)

/-! Concrete registry states used by counterexamples and witnesses. -/

/-- Ten output lines. -/
def c4Lines : List String :=
  ["l1", "l2", "l3", "l4", "l5", "l6", "l7", "l8", "l9", "l10"]

/-- A completed entry with ten cached lines. -/
def c4Entry : REntry :=
  { command := "seq 1 10", startTime := 0, completedAt := some 0, buffer := [],
    hasJoinHandle := false,
    result := some { exitCode := 0, lines := c4Lines, timedOut := false },
    maxOutputLines := 200 }

def c4St : Registry := [("p", c4Entry)]

/-- A running entry whose task handle was already taken by a wait. -/
def c5Entry : REntry :=
  { command := "sleep 60", startTime := 0, completedAt := none, buffer := ["partial"],
    hasJoinHandle := false, result := none, maxOutputLines := 200 }

def c5St : Registry := [("w", c5Entry)]

/-- A running entry whose task handle is still present. -/
def c5bEntry : REntry :=
  { command := "sleep 60", startTime := 0, completedAt := none, buffer := ["one", "two"],
    hasJoinHandle := true, result := none, maxOutputLines := 200 }

def c5bSt : Registry := [("r", c5bEntry)]

/-- An entry that completed at time zero, hence expired at any time at
least the TTL later. -/
def c6Entry : REntry :=
  { command := "echo done", startTime := 0, completedAt := some 0, buffer := [],
    hasJoinHandle := false,
    result := some { exitCode := 0, lines := ["done"], timedOut := false },
    maxOutputLines := 200 }

def c6St : Registry := [("old", c6Entry)]

/-- The slice returned for the in-range witness request on c4St. -/
def c4Slice : OutputSlice :=
  { id := "p", startLine := 3, endLine := 7, totalLines := 10,
    lines := ["l4", "l5", "l6", "l7"] }

/-- A benign configuration for witnesses. -/
def cfg0 : ProcessConfig :=
  { command := "echo hi", workingDirectory := none, timeoutSeconds := none }

/-! Helper lemmas about the window projections. -/

theorem window_head_eq (L : List String) (B : Nat) :
    (window L B).head = if L.length ≤ B then L else L.take (min 10 B) := by
  unfold window
  dsimp only
  split <;> rfl

theorem window_tail_eq (L : List String) (B : Nat) :
    (window L B).tail =
      if L.length ≤ B then ([] : List String)
      else if 0 < B - min 10 B then L.drop (L.length - (B - min 10 B)) else [] := by
  unfold window
  dsimp only
  split <;> rfl

theorem window_truncated_eq (L : List String) (B : Nat) :
    (window L B).truncated = if L.length ≤ B then false else true := by
  unfold window
  dsimp only
  split <;> rfl

theorem window_errorLines_eq (L : List String) (B : Nat) :
    (window L B).errorLines = extractErrors L := by
  unfold window
  dsimp only
  split <;> rfl

/-- C2: for every line sequence and budget, window returns the full
input as head with empty tail and no truncation when the input fits;
otherwise the head is the first min(10, B) lines and the tail the last
B - min(10, B) lines with truncation set; head plus tail never exceed
the budget and truncation holds exactly when the input exceeds it. -/
theorem spec_c2 (L : List String) (B : Nat) :
    (L.length ≤ B →
      (window L B).head = L ∧ (window L B).tail = [] ∧ (window L B).truncated = false) ∧
    (B < L.length →
      (window L B).head = L.take (min 10 B) ∧
      (window L B).tail = L.drop (L.length - (B - min 10 B)) ∧
      (window L B).truncated = true) ∧
    (window L B).head.length + (window L B).tail.length ≤ B ∧
    ((window L B).truncated = true ↔ B < L.length) := by
  have hh := window_head_eq L B
  have ht := window_tail_eq L B
  have htr := window_truncated_eq L B
  by_cases h : L.length ≤ B
  · rw [if_pos h] at hh ht htr
    refine ⟨fun _ => ⟨hh, ht, htr⟩, fun hgt => absurd h (by omega), ?_, ?_⟩
    · rw [hh, ht]
      simpa using h
    · rw [htr]
      exact ⟨fun hfalse => (nomatch hfalse), fun hgt => absurd h (by omega)⟩
  · rw [if_neg h] at hh ht htr
    have hgt : B < L.length := by omega
    have hmin : min 10 B ≤ B := Nat.min_le_right 10 B
    refine ⟨fun hle => absurd hle h, fun _ => ⟨hh, ?_, htr⟩, ?_, ?_⟩
    · rw [ht]
      by_cases h0 : 0 < B - min 10 B
      · rw [if_pos h0]
      · rw [if_neg h0]
        have hz : B - min 10 B = 0 := by omega
        rw [hz, Nat.sub_zero, List.drop_length]
    · rw [hh, ht]
      by_cases h0 : 0 < B - min 10 B
      · rw [if_pos h0, List.length_take, List.length_drop]
        omega
      · rw [if_neg h0, List.length_take]
        simp only [List.length_nil]
        omega
    · rw [htr]
      exact ⟨fun _ => hgt, fun _ => rfl⟩

/-- C2 witness: a concrete truncating instance obtained from the claim
theorem. -/
theorem spec_c2_witness :
    (window ["a", "b", "c"] 2).truncated = true ∧ (window ["a", "b", "c"] 2).tail = [] := by
  have h := (spec_c2 ["a", "b", "c"] 2).2.1 (by decide)
  exact ⟨h.2.2, by decide⟩

/-- C7: the error lines of a window equal extract_errors of the full
input for every budget, extract_errors is the order-preserving filter by
the ten case-insensitive word-boundary patterns, and the result is a
sublist of the input. -/
theorem spec_c7 (L : List String) (B : Nat) :
    (window L B).errorLines = extractErrors L ∧
    extractErrors L = L.filter isErrorLine ∧
    (extractErrors L).Sublist L := by
  exact ⟨window_errorLines_eq L B, rfl, List.filter_sublist L⟩

/-- C10: whenever window truncates, the budget is used exactly, the head
and tail index ranges are disjoint, and head followed by tail is a
subsequence of the input. -/
theorem spec_c10 (L : List String) (B : Nat) (hgt : B < L.length) :
    (window L B).head.length + (window L B).tail.length = B ∧
    min 10 B ≤ L.length - (B - min 10 B) ∧
    ((window L B).head ++ (window L B).tail).Sublist L := by
  have hh := window_head_eq L B
  have ht := window_tail_eq L B
  rw [if_neg (by omega)] at hh ht
  have hmin : min 10 B ≤ B := Nat.min_le_right 10 B
  have hrange : min 10 B ≤ L.length - (B - min 10 B) := by omega
  refine ⟨?_, hrange, ?_⟩
  · rw [hh, ht]
    by_cases h0 : 0 < B - min 10 B
    · rw [if_pos h0, List.length_take, List.length_drop]
      omega
    · rw [if_neg h0, List.length_take]
      simp only [List.length_nil]
      omega
  · rw [hh, ht]
    by_cases h0 : 0 < B - min 10 B
    · rw [if_pos h0]
      have h1 : L.take (min 10 B) = (L.take (L.length - (B - min 10 B))).take (min 10 B) := by
        rw [List.take_take, min_eq_left hrange]
      have hsub1 : (L.take (min 10 B)).Sublist (L.take (L.length - (B - min 10 B))) := by
        rw [h1]
        exact List.take_sublist _ _
      have hsub := List.Sublist.append hsub1
        (List.Sublist.refl (L.drop (L.length - (B - min 10 B))))
      rwa [List.take_append_drop] at hsub
    · rw [if_neg h0]
      simpa using List.take_sublist (min 10 B) L

/-- C10 witness: the truncating instance with three lines and budget
two, obtained from the claim theorem. -/
theorem spec_c10_witness :
    (window ["a", "b", "c"] 2).head.length + (window ["a", "b", "c"] 2).tail.length = 2 ∧
    ((window ["a", "b", "c"] 2).head ++ (window ["a", "b", "c"] 2).tail).Sublist
      ["a", "b", "c"] := by
  have h := spec_c10 ["a", "b", "c"] 2 (by decide)
  exact ⟨h.1, h.2.2⟩

/-! Helper lemmas for the ANSI stripper and the line cleaner. -/

theorem matchAnsiAt_none (x : Char) (xs : List Char) (hx : x ≠ '\x1b')
    (hbs : ∀ c ∈ xs, c ≠ '\x08') : matchAnsiAt (x :: xs) = none := by
  cases xs with
  | nil => rfl
  | cons b rest =>
    have hb : b ≠ '\x08' := hbs b (by simp)
    cases rest with
    | nil =>
      simp [matchAnsiAt, matchCSI, matchOSC, matchCharset, matchTwoByte, matchBS, hx, hb]
    | cons c rest2 =>
      simp [matchAnsiAt, matchCSI, matchOSC, matchCharset, matchTwoByte, matchBS, hx, hb]

theorem stripGoF_clean (fuel : Nat) (l : List Char)
    (h : ∀ c ∈ l, c ≠ '\x1b' ∧ c ≠ '\x08') : stripGoF fuel l = l := by
  induction fuel generalizing l with
  | zero => rfl
  | succ fuel ih =>
    cases l with
    | nil => rfl
    | cons x xs =>
      have hx : x ≠ '\x1b' := (h x (by simp)).1
      have hbs : ∀ c ∈ xs, c ≠ '\x08' := fun c hc => (h c (by simp [hc])).2
      have hstep : stripGoF (fuel + 1) (x :: xs) =
          (match matchAnsiAt (x :: xs) with
           | some n => stripGoF fuel (List.drop n (x :: xs))
           | none => x :: stripGoF fuel xs) := rfl
      rw [hstep, matchAnsiAt_none x xs hx hbs]
      show x :: stripGoF fuel xs = x :: xs
      rw [ih xs (fun c hc => h c (by simp [hc]))]

theorem stripAnsiL_clean (l : List Char)
    (h : ∀ c ∈ l, c ≠ '\x1b' ∧ c ≠ '\x08') : stripAnsiL l = l :=
  stripGoF_clean l.length l h

theorem head_dropWhile_ne (p : Char → Bool) (m : List Char) (y : Char)
    (h : (m.dropWhile p).head? = some y) : p y = false := by
  induction m with
  | nil => simp at h
  | cons a as ih =>
    by_cases hp : p a
    · rw [List.dropWhile_cons, if_pos hp] at h
      exact ih h
    · rw [List.dropWhile_cons, if_neg hp] at h
      simp at h
      rw [← h]
      exact Bool.of_not_eq_true hp

theorem dropTrail_eq_self (c : Char) (l : List Char) (h : l.getLast? ≠ some c) :
    dropTrail c l = l := by
  unfold dropTrail
  have hrw : l.reverse.dropWhile (fun x => x == c) = l.reverse := by
    cases hr : l.reverse with
    | nil => rfl
    | cons y ys =>
      have hy : (y == c) = false := by
        have hhead : l.reverse.head? = some y := by rw [hr]; rfl
        rw [List.head?_reverse] at hhead
        simp only [beq_eq_false_iff_ne]
        intro he
        exact h (he ▸ hhead)
      rw [List.dropWhile_cons, if_neg (by simp [hy])]
  rw [hrw, List.reverse_reverse]

theorem dropTrail_getLast (c : Char) (l : List Char) :
    (dropTrail c l).getLast? ≠ some c := by
  unfold dropTrail
  rw [List.getLast?_reverse]
  intro h
  have := head_dropWhile_ne (fun x => x == c) l.reverse c h
  simp at this

/-- C8 counterexample: stripping is not idempotent; removing the inner
backspace pair of this input juxtaposes a new pair that only a second
pass removes. -/
theorem spec_c8_cex :
    stripAnsi (stripAnsi "ab\x08\x08") ≠ stripAnsi "ab\x08\x08" := by decide

/-- C8 amended: a second strip is the identity whenever the first pass
left no escape and no backspace characters; in general replace_all works
in a single left-to-right pass over the original string, so a removal
can juxtapose a new match and idempotence fails. -/
theorem spec_c8 (s : String)
    (hclean : ∀ c ∈ (stripAnsi s).data, c ≠ '\x1b' ∧ c ≠ '\x08') :
    stripAnsi (stripAnsi s) = stripAnsi s := by
  show String.mk (stripAnsiL (stripAnsi s).data) = stripAnsi s
  rw [stripAnsiL_clean _ hclean]

/-- C8 witness: a colored string whose stripped form is clean. -/
theorem spec_c8_witness :
    (∀ c ∈ (stripAnsi "ok\x1b[31m").data, c ≠ '\x1b' ∧ c ≠ '\x08') ∧
    stripAnsi (stripAnsi "ok\x1b[31m") = stripAnsi "ok\x1b[31m" :=
  ⟨by decide, spec_c8 "ok\x1b[31m" (by decide)⟩

/-- C9 counterexample: cleaning is not idempotent; the first pass of
this input stops at the trailing carriage return and leaves a newline
that only the second pass removes. -/
theorem spec_c9_cex :
    cleanLine (cleanLine "a\n\r") ≠ cleanLine "a\n\r" := by decide

/-- C9 amended: cleaning is idempotent on every input whose cleaned form
contains no escape or backspace character and does not end in a newline;
in general the trim of trailing newlines runs before the trim of
trailing carriage returns, so a suffix of newline then carriage return
survives one pass and falls to the next. -/
theorem spec_c9 (x : String)
    (hclean : ∀ c ∈ (cleanLine x).data, c ≠ '\x1b' ∧ c ≠ '\x08')
    (hnl : (cleanLine x).data.getLast? ≠ some '\n') :
    cleanLine (cleanLine x) = cleanLine x := by
  have h1 : stripAnsiL (cleanLine x).data = (cleanLine x).data :=
    stripAnsiL_clean _ hclean
  have h3 : dropTrail '\r' (cleanLine x).data = (cleanLine x).data :=
    dropTrail_eq_self '\r' _ (dropTrail_getLast '\r' _)
  have h2 : dropTrail '\n' (cleanLine x).data = (cleanLine x).data :=
    dropTrail_eq_self '\n' _ hnl
  show String.mk (dropTrail '\r' (dropTrail '\n' (stripAnsiL (cleanLine x).data))) = cleanLine x
  rw [h1, h2, h3]

/-- C9 witness: a line with terminal CRLF whose cleaned form is clean
and does not end in a newline. -/
theorem spec_c9_witness :
    (∀ c ∈ (cleanLine "hi\r\n").data, c ≠ '\x1b' ∧ c ≠ '\x08') ∧
    cleanLine (cleanLine "hi\r\n") = cleanLine "hi\r\n" :=
  ⟨by decide, spec_c9 "hi\r\n" (by decide) (by decide)⟩

/-- C3: a command rejected by the validator yields the synthetic result
with exit code -1, no timeout flag and the reason as the sole line, and
no process is spawned. -/
theorem spec_c3 (cfg : ProcessConfig) (execResult : PResult) (r : String)
    (h : validateCommand cfg.command = Except.error r) :
    runModel cfg execResult =
      { result := { exitCode := -1, lines := [r], timedOut := false },
        spawned := false } := by
  unfold runModel
  rw [h]

/-- C3 witness: the canonical blocked command. -/
theorem spec_c3_witness :
    runModel { command := "rm -rf /", workingDirectory := none, timeoutSeconds := none }
        { exitCode := 0, lines := [], timedOut := false } =
      { result :=
          { exitCode := -1,
            lines := ["blocked: recursive delete targeting a protected system path: rm -rf /"],
            timedOut := false },
        spawned := false } :=
  spec_c3 { command := "rm -rf /", workingDirectory := none, timeoutSeconds := none }
    { exitCode := 0, lines := [], timedOut := false }
    "blocked: recursive delete targeting a protected system path: rm -rf /" (by rfl)

/-- C4 counterexample: with ten cached lines, a start request of five
and an end request of two, the returned end line is smaller than the
returned start line, so the effective end is not clamped to the range
from start to total. -/
theorem spec_c4_cex :
    getOutputModel c4St "p" (some 5) (some 2) =
      Except.ok { id := "p", startLine := 5, endLine := 2, totalLines := 10, lines := [] } ∧
    (2 : Nat) < 5 :=
  ⟨rfl, by decide⟩

theorem sliceCalc_lines (idv : String) (ls : List String) (startQ endQ : Option Nat) :
    (sliceCalc idv ls startQ endQ).lines =
      (ls.drop (sliceCalc idv ls startQ endQ).startLine).take
        ((sliceCalc idv ls startQ endQ).endLine - (sliceCalc idv ls startQ endQ).startLine) := by
  unfold sliceCalc
  dsimp only
  split
  · rfl
  · next hlt =>
    rw [Nat.sub_eq_zero_of_le (Nat.le_of_not_lt hlt), List.take_zero]

theorem sliceCalc_bounds (idv : String) (ls : List String) (startQ endQ : Option Nat) :
    (sliceCalc idv ls startQ endQ).id = idv ∧
    (sliceCalc idv ls startQ endQ).totalLines = ls.length ∧
    (sliceCalc idv ls startQ endQ).startLine ≤ ls.length ∧
    (sliceCalc idv ls startQ endQ).endLine ≤ ls.length ∧
    (sliceCalc idv ls startQ endQ).endLine ≤ (sliceCalc idv ls startQ endQ).startLine + 500 ∧
    (sliceCalc idv ls startQ endQ).lines.length ≤ 500 := by
  unfold sliceCalc
  dsimp only
  refine ⟨rfl, rfl, by omega, by omega, by omega, ?_⟩
  split
  · rw [List.length_take, List.length_drop]
    omega
  · simp

/-- C4 amended: start is clamped to the range from zero to total, the
effective end is clamped to that range and capped at start plus 500 but
may fall below start (returning no lines); at most 500 lines are
returned, the lines come from the cached result if present and otherwise
from the live buffer, and the reported total is the length of that
source. -/
theorem spec_c4 (st : Registry) (id : String) (startQ endQ : Option Nat)
    (o : OutputSlice) (h : getOutputModel st id startQ endQ = Except.ok o) :
    o.lines.length <= 500 ∧
    o.startLine <= o.totalLines ∧
    o.endLine <= o.totalLines ∧
    o.endLine <= o.startLine + 500 ∧
    o.id = id ∧
    (∀ e, regFind st id = some e →
      o.totalLines = (entryLines e).length ∧
      o.lines = ((entryLines e).drop o.startLine).take (o.endLine - o.startLine)) := by
  unfold getOutputModel at h
  cases hf : regFind st id with
  | none =>
    rw [hf] at h
    cases h
  | some e =>
    rw [hf] at h
    injection h with h2
    subst h2
    obtain ⟨hid, htl, hs, hen, hcap, hlen⟩ := sliceCalc_bounds id (entryLines e) startQ endQ
    refine ⟨hlen, ?_, ?_, hcap, hid, ?_⟩
    · rw [htl]
      exact hs
    · rw [htl]
      exact hen
    · intro e2 hf2
      injection hf2 with he
      subst he
      exact ⟨htl, sliceCalc_lines id (entryLines e) startQ endQ⟩

/-- C4 witness: an in-range request on the ten-line entry, passed
through the amended theorem. -/
theorem spec_c4_witness :
    c4Slice.lines.length ≤ 500 ∧ c4Slice.endLine ≤ c4Slice.startLine + 500 := by
  have h := spec_c4 c4St "p" (some 3) (some 7) c4Slice (by rfl)
  exact ⟨h.1, h.2.2.2.1⟩

theorem killModel_find (st : Registry) (now : Nat) (id : String) (e : REntry)
    (hfind : regFind st id = some e) :
    killModel st now id =
      (if e.result.isSome then
        Except.error ("process " ++ sqs ++ id ++ sqs ++ " has already completed")
      else if e.hasJoinHandle then
        Except.ok (regUpdate st id
          { e with hasJoinHandle := false,
                   result := some { exitCode := -1, lines := e.buffer, timedOut := false },
                   completedAt := some now })
      else Except.ok st) := by
  unfold killModel
  rw [hfind]

theorem waitLock_find (st : Registry) (id : String) (e : REntry)
    (hfind : regFind st id = some e) :
    waitLock st id =
      (match e.result with
       | some r => Except.ok (WaitStep.cached r e.maxOutputLines, st)
       | none =>
         if e.hasJoinHandle then
           Except.ok (WaitStep.taken e.maxOutputLines,
             regUpdate st id { e with hasJoinHandle := false })
         else
           Except.error ("process " ++ sqs ++ id ++ sqs ++ " is already being waited on")) := by
  unfold waitLock
  rw [hfind]

/-- C5 counterexample: on a running entry whose handle was already taken
by a wait, kill succeeds but stores nothing, so an entry can remain
running after a successful kill. -/
theorem spec_c5_cex :
    killModel c5St 100 "w" = Except.ok c5St ∧
    c5Entry.result = none ∧ c5Entry.hasJoinHandle = false :=
  ⟨rfl, rfl, rfl⟩

/-- C5 amended: kill refuses when a cached result exists; otherwise it
succeeds, and when the task handle is still present it aborts the task
and immediately stores the synthetic result with the buffer snapshot and
a completion time; when the handle was already taken by a wait, kill
succeeds without changing the registry. -/
theorem spec_c5 (st : Registry) (now : Nat) (id : String) (e : REntry)
    (hfind : regFind st id = some e) :
    (∀ r, e.result = some r →
      killModel st now id =
        Except.error ("process " ++ sqs ++ id ++ sqs ++ " has already completed")) ∧
    (e.result = none → e.hasJoinHandle = true →
      killModel st now id =
        Except.ok (regUpdate st id
          { e with hasJoinHandle := false,
                   result := some { exitCode := -1, lines := e.buffer, timedOut := false },
                   completedAt := some now })) ∧
    (e.result = none → e.hasJoinHandle = false → killModel st now id = Except.ok st) := by
  have hk := killModel_find st now id e hfind
  refine ⟨fun r hr => ?_, fun hr hh => ?_, fun hr hh => ?_⟩
  · rw [hk, hr]
    rfl
  · rw [hk, hr, hh]
    rfl
  · rw [hk, hr, hh]
    rfl

/-- C5 witness: killing a running entry whose handle is present stores
the synthetic result. -/
theorem spec_c5_witness :
    killModel c5bSt 7 "r" =
      Except.ok (regUpdate c5bSt "r"
        { c5bEntry with hasJoinHandle := false,
                        result := some { exitCode := -1, lines := c5bEntry.buffer,
                                         timedOut := false },
                        completedAt := some 7 }) :=
  (spec_c5 c5bSt 7 "r" c5bEntry (by rfl)).2.1 (by rfl) (by rfl)

/-- C6 counterexample: with an entry whose completion lies a TTL in the
past, kill at that later time still reports it as already completed and
the wait phase still returns its cached result, so neither operation
pruned it first. -/
theorem spec_c6_cex :
    isExpired c6Entry 5000 = true ∧
    killModel c6St 5000 "old" =
      Except.error ("process " ++ sqs ++ "old" ++ sqs ++ " has already completed") ∧
    waitLock c6St "old" =
      Except.ok (WaitStep.cached { exitCode := 0, lines := ["done"], timedOut := false } 200,
        c6St) :=
  ⟨by decide, rfl, rfl⟩

/-- C6 amended: start and store_result prune expired entries before
acting (running them on the pruned map changes nothing), while wait and
kill do not prune: both observe and act on any completed entry, expired
or not. -/
theorem spec_c6 (st : Registry) (now : Nat) (id : String) (cfg : ProcessConfig)
    (cmd : String) (r : PResult) (ml : Nat) (e : REntry) :
    startModel st now id cfg ml = startModel (pruneExpired st now) now id cfg ml ∧
    storeResultModel st now id cmd r ml =
      storeResultModel (pruneExpired st now) now id cmd r ml ∧
    (regFind st id = some e → e.result = some r →
      waitLock st id = Except.ok (WaitStep.cached r e.maxOutputLines, st)) ∧
    (regFind st id = some e → e.result = some r →
      killModel st now id =
        Except.error ("process " ++ sqs ++ id ++ sqs ++ " has already completed")) := by
  have hidem : pruneExpired (pruneExpired st now) now = pruneExpired st now := by
    simp [pruneExpired, List.filter_filter]
  refine ⟨?_, ?_, fun hf hr => ?_, fun hf hr => ?_⟩
  · unfold startModel
    rw [hidem]
  · unfold storeResultModel
    rw [hidem]
  · rw [waitLock_find st id e hf, hr]
  · rw [killModel_find st now id e hf, hr]
    rfl

/-- C6 witness: the expired completed entry, passed through the amended
theorem. -/
theorem spec_c6_witness :
    startModel c6St 5000 "old" cfg0 200 =
      startModel (pruneExpired c6St 5000) 5000 "old" cfg0 200 ∧
    waitLock c6St "old" =
      Except.ok (WaitStep.cached { exitCode := 0, lines := ["done"], timedOut := false } 200,
        c6St) := by
  have h := spec_c6 c6St 5000 "old" cfg0 "echo done"
    { exitCode := 0, lines := ["done"], timedOut := false } 200 c6Entry
  exact ⟨h.1, h.2.2.1 (by rfl) (by rfl)⟩

/-! Helper lemmas for the validator claim. -/

theorem findDangerousD_isSome (pats : List (List (List RAtom) × String)) (cs : List Char) :
    (findDangerousD pats cs).isSome = pats.any (fun pr => reMatch pr.1 cs) := by
  induction pats with
  | nil => rfl
  | cons p rest ih =>
    cases p with
    | mk pat descr =>
      show (if reMatch pat cs then some descr else findDangerousD rest cs).isSome = _
      by_cases h : reMatch pat cs
      · simp [h]
      · simp [h, ih]

theorem destructiveHit_nil : destructiveHit ([] : List Char) = false := rfl

theorem checkSubs_isErr (subs : List (List Char)) :
    isErrE (checkSubs subs) = subs.any (fun sub => destructiveHit (trimStrL sub)) := by
  induction subs with
  | nil => rfl
  | cons sub rest ih =>
    have hstep : checkSubs (sub :: rest) =
        (if (trimStrL sub).isEmpty then checkSubs rest
         else if isDangerousRm (trimStrL sub) then
           Except.error
             ("blocked: recursive delete targeting a protected system path: " ++
               strOf (trimStrL sub))
         else if isDangerousCC (trimStrL sub) "chmod".data then
           Except.error
             ("blocked: recursive chmod on a protected system path: " ++ strOf (trimStrL sub))
         else if isDangerousCC (trimStrL sub) "chown".data then
           Except.error
             ("blocked: recursive chown on a protected system path: " ++ strOf (trimStrL sub))
         else checkSubs rest) := rfl
    rw [hstep, List.any_cons]
    by_cases h0 : (trimStrL sub).isEmpty
    · rw [if_pos h0, ih, List.isEmpty_iff.mp h0, destructiveHit_nil]
      simp
    · rw [if_neg h0]
      by_cases h1 : isDangerousRm (trimStrL sub)
      · rw [if_pos h1]
        simp [destructiveHit, h1, isErrE]
      · by_cases h2 : isDangerousCC (trimStrL sub) "chmod".data
        · rw [if_neg h1, if_pos h2]
          simp [destructiveHit, h2, isErrE]
        · by_cases h3 : isDangerousCC (trimStrL sub) "chown".data
          · rw [if_neg h1, if_neg h2, if_pos h3]
            simp [destructiveHit, h3, isErrE]
          · rw [if_neg h1, if_neg h2, if_neg h3, ih]
            simp [destructiveHit, h1, h2, h3]

theorem protAny_star (a : List Char) :
    (protectedPaths.any (fun p => normPath a == normPath p.data || a == "/*".data)) =
      (specProtectedAmended.any (fun p => normPath a == normPath p.data)) := by
  by_cases hl : a = "/*".data
  · subst hl
    decide
  · have hfalse : (a == "/*".data) = false := beq_eq_false_iff_ne.mpr hl
    simp only [hfalse, Bool.or_false]
    rfl

theorem isDangerousRm_eq_spec (t : List Char) : isDangerousRm t = specRmAmended t := by
  unfold isDangerousRm specRmAmended
  cases hA : argsAfter "rm".data (splitWs t) with
  | none => rfl
  | some args =>
    have hfun : (fun a => !startsDash a &&
          protectedPaths.any (fun p => normPath a == normPath p.data || a == "/*".data)) =
        (fun a => !startsDash a &&
          specProtectedAmended.any (fun p => normPath a == normPath p.data)) := by
      funext a
      rw [protAny_star a]
    rw [hfun]

theorem isDangerousCC_eq_spec (t c : List Char) : isDangerousCC t c = specCCAmended t c := rfl

theorem destructiveHit_eq_spec (t : List Char) :
    destructiveHit t =
      (specRmAmended t || specCCAmended t "chmod".data || specCCAmended t "chown".data) := by
  unfold destructiveHit
  rw [isDangerousRm_eq_spec, isDangerousCC_eq_spec, isDangerousCC_eq_spec]

/-- C1 counterexample: the literal star target is in the protected set
of the source for chmod and chown as well, so this command is rejected
by the code although the claim as stated accepts it. -/
theorem spec_c1_cex :
    isErrE (validateCommand "chmod -R 777 /*") = true ∧
    specRejectsOrig "chmod -R 777 /*" = false := by decide

/-- C1 amended: a command is rejected exactly when it matches one of the
dangerous-pattern regexes, or some sub-command (split on the three shell
separators) invokes rm, chmod or chown (first whole-word occurrence,
possibly preceded by arbitrary tokens) with a recognized recursive flag
(long form, canonical short r or R, or a short cluster containing r or R
for rm; long form, canonical short R, or a short cluster containing R
for chmod and chown) and at least one positional argument equal, after
trimming trailing slashes, to a protected path, where the literal star
target belongs to the protected set for all three tools. -/
theorem spec_c1 (s : String) : isErrE (validateCommand s) = specRejectsAmended s := by
  unfold validateCommand specRejectsAmended
  cases hfd : findDangerousD dangerousPatterns s.data with
  | some d =>
    have hiso := findDangerousD_isSome dangerousPatterns s.data
    rw [hfd] at hiso
    have hany : dangerousAny s.data = true := by
      unfold dangerousAny
      exact hiso.symm
    rw [hany]
    simp [isErrE]
  | none =>
    have hiso := findDangerousD_isSome dangerousPatterns s.data
    rw [hfd] at hiso
    have hany : dangerousAny s.data = false := by
      unfold dangerousAny
      exact hiso.symm
    rw [hany]
    simp only [Bool.false_or]
    show isErrE (checkSubs (subcommandsOf s.data)) = _
    rw [checkSubs_isErr]
    have hfun : (fun sub => destructiveHit (trimStrL sub)) =
        (fun (sub : List Char) => specRmAmended (trimStrL sub) ||
          specCCAmended (trimStrL sub) "chmod".data ||
          specCCAmended (trimStrL sub) "chown".data) := by
      funext sub
      exact destructiveHit_eq_spec (trimStrL sub)
    rw [hfun]

end Agentsh
